import Mathlib

/-!
Verification of the route-resolution and dispatch core of the satset-react
framework (file-convention web framework).  The definitions below are a
shallow embedding of the TypeScript sources:

  * `src/router/file-system.ts` — route discovery (`scanApiDirectory`,
    `extractParams`) and matching (`matchRoute`, `matchDynamicRoute`);
  * `src/server/dev.ts` — locale stripping (`stripLocaleFromPath`), the
    request-dispatch tail (API before pages, terminal API 404), the compiled
    artifact paths of API handlers and page modules, the staleness check of
    the compilation cache, API handler export resolution, and the page-render
    error handling (redirect signal, not-found signal, generic errors);
  * `src/server/response.ts` / `src/core/response.ts` — `SatsetResponse`
    construction and `sendSatsetResponse`.

JavaScript strings are modelled through their character lists (`String.data`);
JavaScript objects whose keys matter (route params, handler export maps,
response headers) are modelled as association lists in insertion order.
-/

namespace Satset

/-! ### Character-level string primitives

These model the JavaScript string operations used by the sources:
`split(c)`, `join('/')`, `startsWith(p)`, `includes(c)`.  They are defined
by structural recursion on the character list so that every theorem below
can be settled by computation or induction. -/

/-- Model of JavaScript `s.split(sep)` for a single-character separator,
acting on the character list.  `split` always returns at least one (possibly
empty) group. -/
def splitChars (sep : Char) : List Char → List (List Char)
  | [] => [[]]
  | c :: cs =>
    match splitChars sep cs with
    | [] => [[]]
    | g :: gs => if c = sep then [] :: g :: gs else (c :: g) :: gs

/-- Model of JavaScript `s.split(sep)` returning strings. -/
def jsSplit (sep : Char) (s : String) : List String :=
  (splitChars sep s.data).map (fun cs => (⟨cs⟩ : String))

/-- The segment list used throughout the router:
`pathname.split('/').filter(Boolean)`. -/
def segsOf (s : String) : List String :=
  (jsSplit '/' s).filter (fun t => t ≠ "")

/-- Model of JavaScript `array.join('/')` on character lists. -/
def joinSeg : List (List Char) → List Char
  | [] => []
  | [g] => g
  | g :: gs => g ++ '/' :: joinSeg gs

/-- Model of JavaScript `segments.join('/')` on strings. -/
def jsJoin (ts : List String) : String :=
  (⟨joinSeg (ts.map String.data)⟩ : String)

/-- Model of JavaScript `s.startsWith(p)`. -/
def jsStartsWith (s p : String) : Bool :=
  p.data.isPrefixOf s.data

/-- Model of JavaScript `s.includes(c)` for a single character. -/
def jsIncludesChar (s : String) (c : Char) : Bool :=
  decide (c ∈ s.data)

/-- Model of JavaScript `s.slice(1)` (all inputs of interest are ASCII, so
code points and UTF-16 units coincide). -/
def jsSlice1 (s : String) : String :=
  (⟨s.data.drop 1⟩ : String)

/-- Model of JavaScript `s.slice(a, -b)`: drop `a` characters from the front
and `b` from the back. -/
def jsSliceDrop (a b : Nat) (s : String) : String :=
  (⟨(s.data.drop a).take (s.data.length - a - b)⟩ : String)

/-! ### Locale resolver: `stripLocaleFromPath` (`src/server/dev.ts`, 1799–1811)

```js
function stripLocaleFromPath(pathname) {
  if (!pathname) return '/';
  const raw = pathname.split('?')[0].split('#')[0];
  const segments = raw.split('/').filter(Boolean);
  if (segments.length === 0) return '/';
  const first = segments[0];
  const localePattern = /^[a-zA-Z]{2}(?:-[a-zA-Z]{2})?$/;
  if (localePattern.test(first)) {
    const rest = segments.slice(1);
    return rest.length ? `/${rest.join('/')}` : '/';
  }
  return raw.startsWith('/') ? raw : `/${raw}`;
}
```
-/

/-- The locale regex `/^[a-zA-Z]{2}(?:-[a-zA-Z]{2})?$/`:
exactly two ASCII letters, optionally followed by a dash and two more. -/
def localeTest (s : String) : Bool :=
  match s.data with
  | [a, b] => a.isAlpha && b.isAlpha
  | [a, b, '-', d, e] => a.isAlpha && b.isAlpha && d.isAlpha && e.isAlpha
  | _ => false

/-- `raw.startsWith('/')` specialised to one character (head test). -/
def startsWithSlash (s : String) : Bool :=
  match s.data with
  | c :: _ => c = '/'
  | [] => false

/-- `pathname.split('?')[0].split('#')[0]`: the characters before the first
`'?'` and then before the first `'#'`. -/
def rawBeforeQueryHash (pathname : String) : String :=
  (⟨(pathname.data.takeWhile (fun c => c ≠ '?')).takeWhile (fun c => c ≠ '#')⟩ : String)

/-- Embedding of `stripLocaleFromPath` from `src/server/dev.ts` (`raw` is
written out as `rawBeforeQueryHash pathname` at each use site). -/
def stripLocaleFromPath (pathname : String) : String :=
  if pathname = "" then "/"
  else
    match segsOf (rawBeforeQueryHash pathname) with
    | [] => "/"
    | first :: rest =>
      if localeTest first then
        if rest = [] then "/" else "/" ++ jsJoin rest
      else if startsWithSlash (rawBeforeQueryHash pathname) then rawBeforeQueryHash pathname
      else "/" ++ rawBeforeQueryHash pathname

/-! ### Route records and the matcher (`src/router/file-system.ts`)

```ts
export interface Route {
  path: string; component: string; exact?: boolean; dynamic?: boolean;
  params?: string[]; catchAllOptional?: boolean;
}
```
Optional fields are `Option`-valued; an absent field is `none` and is falsy
wherever the TypeScript code tests it. -/

structure Route where
  path : String
  component : String
  exact : Option Bool := none
  dynamic : Option Bool := none
  params : Option (List String) := none
  catchAllOptional : Option Bool := none
deriving DecidableEq

/-- JavaScript truthiness of an optional boolean field (absent = falsy). -/
def truthy (b : Option Bool) : Bool :=
  b.getD false

/-- JavaScript object assignment `params[k] = v` on an association list:
overwrite in place if the key exists, otherwise append (JS objects keep
first-insertion key order). -/
def objInsert (m : List (String × String)) (k v : String) : List (String × String) :=
  match m with
  | [] => [(k, v)]
  | (k', v') :: rest => if k' = k then (k', v) :: rest else (k', v') :: objInsert rest k v

/-- Lines 353–354 of `file-system.ts`: `routeSegments[catchAllIndex].slice(1)`
followed by stripping a leading `'?'` (the optional-catch-all marker). -/
def cleanCatchAllName (seg : String) : String :=
  let raw := jsSlice1 seg
  if jsStartsWith raw "?" then jsSlice1 raw else raw

/-- The per-index loop of `matchDynamicRoute` for non-catch-all routes
(`for (let i = 0; ...)` over segments of equal count): a `:`-segment binds,
a literal segment must be equal, otherwise the route rejects. -/
def matchSegsLoop : List String → List String → List (String × String) →
    Option (List (String × String))
  | [], [], acc => some acc
  | r :: rs, p :: ps, acc =>
    if jsStartsWith r ":" then matchSegsLoop rs ps (objInsert acc (jsSlice1 r) p)
    else if r = p then matchSegsLoop rs ps acc
    else none
  | _, _, _ => none

/-- Embedding of `matchDynamicRoute` (`file-system.ts`, 336–388).  The prefix
loop before the catch-all position is expressed as an `all` over the index
range (the loop's only effect is an early `return null` on the first
mismatch; JavaScript compares `pathSegments[i]`, possibly `undefined`, with
the route segment, which the `Option`-valued indexing reproduces).  Note that
when `routePath` contains `'*'` but no segment begins with `'*'`, the
JavaScript code throws a `TypeError` (it indexes with `findIndex`'s `-1`);
no theorem below depends on that corner. -/
def matchDynamicRoute (pathname routePath : String) (catchAllOptional : Bool) :
    Option (List (String × String)) :=
  let pathSegments := segsOf pathname
  let routeSegments := segsOf routePath
  if jsIncludesChar routePath '*' then
    let catchAllIndex := routeSegments.findIdx (fun s => jsStartsWith s "*")
    if (List.range catchAllIndex).all
        (fun i => decide (pathSegments[i]? = routeSegments[i]?)) then
      let paramName := cleanCatchAllName (routeSegments.getD catchAllIndex "")
      if decide (pathSegments.length ≤ catchAllIndex) && catchAllOptional then
        some (objInsert [] paramName "")
      else
        some (objInsert [] paramName (jsJoin (pathSegments.drop catchAllIndex)))
    else none
  else
    if pathSegments.length ≠ routeSegments.length then none
    else matchSegsLoop routeSegments pathSegments []

/-- Embedding of `matchRoute` (`file-system.ts`, 313–334): iterate the table
in order; dynamic routes consult `matchDynamicRoute`, exact static routes
require equality, non-exact static routes require a raw string prefix. -/
def matchRoute (pathname : String) : List Route → Option (Route × List (String × String))
  | [] => none
  | route :: rest =>
    if truthy route.dynamic then
      match matchDynamicRoute pathname route.path (truthy route.catchAllOptional) with
      | some m => some (route, m)
      | none => matchRoute pathname rest
    else if truthy route.exact then
      if pathname = route.path then some (route, []) else matchRoute pathname rest
    else
      if jsStartsWith pathname route.path then some (route, []) else matchRoute pathname rest

/-- Embedding of `extractParams` (`file-system.ts`, 298–311): scan
`routePath.split('/')` (unfiltered) and collect the names of `:`- and
`*`-prefixed segments. -/
def extractParams (routePath : String) : List String :=
  (jsSplit '/' routePath).filterMap (fun seg =>
    if jsStartsWith seg ":" then some (jsSlice1 seg)
    else if jsStartsWith seg "*" then some (jsSlice1 seg)
    else none)

/-! ### API route discovery (`scanApiDirectory`, `file-system.ts`, 223–296)

The filesystem is abstracted as a tree of named entries; `readdirSync`
becomes the entry list of a `dir` node.  `path.join` is modelled as
slash-concatenation (its behaviour on the plain relative names produced by
discovery). -/

inductive FsEntry where
  | dir (name : String) (entries : List FsEntry)
  | file (name : String)

/-- Model of JavaScript `s.endsWith(p)`. -/
def jsEndsWith (s p : String) : Bool :=
  p.data.isSuffixOf s.data

/-- Remove the last `n` characters (`file.replace(/\.(ts|js)$/, '')` under the
guard that the name ends in `.ts`/`.js`). -/
def jsDropRight (n : Nat) (s : String) : String :=
  (⟨s.data.take (s.data.length - n)⟩ : String)

/-- Model of `path.join(dir, name)` for the plain names used by discovery. -/
def pathJoin (a b : String) : String :=
  a ++ "/" ++ b

/-- The file branch of `scanApiDirectory` (lines 257–293): compute the route
path and the explicit params for one `.ts`/`.js` file, then push a route whose
`dynamic` and `params` fields are set but whose `exact` field never is.
The branch order is the source's: the plain-dynamic test `[x]` precedes the
`[[...x]]` test and therefore also captures optional catch-all file names. -/
def apiFileRoute (dirPath pfx name : String) : Route :=
  let fileName := jsDropRight 3 name
  let pair : String × List String :=
    if fileName = "route" then ((if pfx = "" then "/" else pfx), [])
    else if jsStartsWith fileName "[" && jsEndsWith fileName "]" &&
        !jsStartsWith fileName "[..." then
      (pfx ++ "/:" ++ jsSliceDrop 1 1 fileName, [jsSliceDrop 1 1 fileName])
    else if jsStartsWith fileName "[..." && jsEndsWith fileName "]" then
      (pfx ++ "/*" ++ jsSliceDrop 4 1 fileName, [jsSliceDrop 4 1 fileName])
    else if jsStartsWith fileName "[[..." && jsEndsWith fileName "]]" then
      (pfx ++ "/*" ++ jsSliceDrop 5 2 fileName, [jsSliceDrop 5 2 fileName])
    else (pfx ++ "/" ++ fileName, [])
  let routePath := pair.1
  let isDynamic := jsIncludesChar routePath ':' || jsIncludesChar routePath '*'
  let params := if pair.2.length = 0 && isDynamic then extractParams routePath else pair.2
  { path := routePath, component := pathJoin dirPath name,
    dynamic := some isDynamic, params := some params }

mutual

/-- Embedding of `scanApiDirectory`: depth-first over the entry list,
accumulating routes in push order. -/
def scanApiDirectory (dirPath pfx : String) : List FsEntry → List Route
  | [] => []
  | e :: rest => scanApiEntry dirPath pfx e ++ scanApiDirectory dirPath pfx rest

/-- One iteration of the `scanApiDirectory` loop: the directory branches
(optional catch-all, catch-all, dynamic, plain — tested in source order)
recurse with the extended path and URL prefix; a `.ts`/`.js` file that is not
a declaration file pushes one route. -/
def scanApiEntry (dirPath pfx : String) : FsEntry → List Route
  | .dir name children =>
    if jsStartsWith name "[[..." && jsEndsWith name "]]" then
      scanApiDirectory (pathJoin dirPath name) (pfx ++ "/*?" ++ jsSliceDrop 5 2 name) children
    else if jsStartsWith name "[..." && jsEndsWith name "]" then
      scanApiDirectory (pathJoin dirPath name) (pfx ++ "/*" ++ jsSliceDrop 4 1 name) children
    else if jsStartsWith name "[" && jsEndsWith name "]" then
      scanApiDirectory (pathJoin dirPath name) (pfx ++ "/:" ++ jsSliceDrop 1 1 name) children
    else
      scanApiDirectory (pathJoin dirPath name) (pfx ++ "/" ++ name) children
  | .file name =>
    if (jsEndsWith name ".ts" || jsEndsWith name ".js") && !jsEndsWith name ".d.ts" then
      [apiFileRoute dirPath pfx name]
    else []

end

/-! ### The request-dispatch tail (`src/server/dev.ts`, 543–571)

After the asset/middleware/action branches, the handler tries the API table,
then — only for paths outside the `/api/` namespace — the page table, then
the registered `/404` or `/not-found` page, then a literal 404 body. -/

inductive DispatchOutcome where
  | apiHandle (r : Route) (params : List (String × String))
  | apiNotFound (status : Nat)
  | pageRender (r : Route) (params : List (String × String))
  | notFoundPage (r : Route)
  | plain404
deriving DecidableEq

def dispatchRoutes (effectivePath : String) (apiRoutes routes : List Route) :
    DispatchOutcome :=
  match matchRoute effectivePath apiRoutes with
  | some (r, ps) => .apiHandle r ps
  | none =>
    if jsStartsWith effectivePath "/api/" then .apiNotFound 404
    else
      match matchRoute effectivePath routes with
      | some (r, ps) => .pageRender r ps
      | none =>
        match routes.find? (fun r => r.path = "/404") with
        | some r => .notFoundPage r
        | none =>
          match routes.find? (fun r => r.path = "/not-found") with
          | some r => .notFoundPage r
          | none => .plain404

/-! ### Specification-side matcher (for the refinement claim C7)

`routeMatches` renders §4.2 of the specification — "the first structurally
compatible route wins" — as a compatibility test per route; `firstCompatible`
is the first-match scan.  `matchRoute` is proved equal to it. -/

def routeMatches (pathname : String) (r : Route) : Option (List (String × String)) :=
  if truthy r.dynamic then matchDynamicRoute pathname r.path (truthy r.catchAllOptional)
  else if truthy r.exact then (if pathname = r.path then some [] else none)
  else (if jsStartsWith pathname r.path then some [] else none)

def firstCompatible (pathname : String) : List Route → Option (Route × List (String × String))
  | [] => none
  | r :: rest =>
    match routeMatches pathname r with
    | some ps => some (r, ps)
    | none => firstCompatible pathname rest

/-! ### Concrete routes used by the examples (as discovery would build them) -/

/-- `src/app/blog/[slug]/page.tsx` discovered by `scanDirectory`. -/
def blogSlugRoute : Route :=
  { path := "/blog/:slug", component := "src/app/blog/[slug]/page.tsx",
    exact := some false, dynamic := some true, params := some ["slug"],
    catchAllOptional := some false }

/-- `src/app/blog/featured/page.tsx` discovered by `scanDirectory`. -/
def blogFeaturedRoute : Route :=
  { path := "/blog/featured", component := "src/app/blog/featured/page.tsx",
    exact := some true, dynamic := some false, params := some [],
    catchAllOptional := some false }

/-- `src/app/docs/[...path]/page.tsx`: required catch-all. -/
def docsCatchAllRoute : Route :=
  { path := "/docs/*path", component := "src/app/docs/[...path]/page.tsx",
    exact := some false, dynamic := some true, params := some ["path"],
    catchAllOptional := some false }

/-- `src/app/shop/[[...path]]/page.tsx`: optional catch-all. -/
def shopOptionalRoute : Route :=
  { path := "/shop/*path", component := "src/app/shop/[[...path]]/page.tsx",
    exact := some false, dynamic := some true, params := some ["path"],
    catchAllOptional := some true }

/-- A page-side catch-all that structurally matches every pathname,
used to show API-namespace 404s never consult the page table. -/
def catchAllPageRoute : Route :=
  { path := "/*rest", component := "src/app/[[...rest]]/page.tsx",
    exact := some false, dynamic := some true, params := some ["rest"],
    catchAllOptional := some true }

/-! ### Compiled artifact paths (`src/server/dev.ts`)

`handleApiRoute` (861–866) derives the artifact name from the project-root
relative path of the handler; `handlePageRoute` (1230–1231) derives it from
`path.basename` alone. -/

/-- Model of Node `path.relative(root, target)` for the only case the
dispatcher exercises: every route component produced by discovery lies
strictly inside the project root, so the relative path is the remainder
after `root ++ "/"`.  Other inputs are returned unchanged (never reached by
the theorems below). -/
def pathRelative (root target : String) : String :=
  if jsStartsWith target (root ++ "/") then
    (⟨target.data.drop (root ++ "/").data.length⟩ : String)
  else target

/-- `.replace(/\\/g, '/')`: backslashes to forward slashes. -/
def backslashToSlash (s : String) : String :=
  (⟨s.data.map (fun c => if c = '\\' then '/' else c)⟩ : String)

/-- `.replace(/\.[^.]+$/, '')`: remove a trailing dot-extension when the
string ends in a dot followed by one or more non-dot characters (when the
reversed string's dot-free tail is nonempty and proper, the character
preceding it is necessarily the dot). -/
def removeLastExt (s : String) : String :=
  let revTail := s.data.reverse.takeWhile (fun c => c ≠ '.')
  if revTail.length ≠ 0 ∧ revTail.length < s.data.length then
    (⟨s.data.take (s.data.length - (revTail.length + 1))⟩ : String)
  else s

/-- One character of `.replace(/[^a-zA-Z0-9_-]/g, '_')`. -/
def sanitizeKeyChar (c : Char) : Char :=
  if c.isAlphanum || c = '_' || c = '-' then c else '_'

/-- `.replace(/[^a-zA-Z0-9_-]/g, '_')`. -/
def sanitizeKey (s : String) : String :=
  (⟨s.data.map sanitizeKeyChar⟩ : String)

/-- `safeComponentKey` (dev.ts 861–865): root-relative path, backslashes
normalised, extension removed, then sanitised. -/
def safeComponentKey (root component : String) : String :=
  sanitizeKey (removeLastExt (backslashToSlash (pathRelative root component)))

/-- `compiledApiPath` (dev.ts 866). -/
def compiledApiPath (root tempDir component : String) : String :=
  pathJoin tempDir (safeComponentKey root component ++ ".api.server.js")

/-- Model of Node `path.basename`: the last slash-separated component. -/
def pathBasename (s : String) : String :=
  (⟨(splitChars '/' s.data).getLastD []⟩ : String)

/-- `compiledServerPath` for page modules (dev.ts 1230–1231): the base name
of the component, extension removed, plus `".server.js"`, inside the temp
directory — the containing directory of the component plays no part. -/
def compiledServerPath (tempDir component : String) : String :=
  pathJoin tempDir (removeLastExt (pathBasename component) ++ ".server.js")

/-! ### Compilation-cache staleness (claim C4)

`handleApiRoute` (893–907) consults the artifact's existence and the two
modification times before bundling; `handlePageRoute` (1267–1275) awaits
`safeBundleServer` unconditionally. -/

/-- The API staleness check: re-bundle unless the compiled artifact exists,
both `statSync` calls succeed, and `outStat.mtimeMs >= srcStat.mtimeMs`
(a stat failure is caught and leaves `needsBundle` true). -/
def apiNeedsBundle (artifactExists : Bool) (stats : Option (Int × Int)) : Bool :=
  if artifactExists then
    match stats with
    | some (srcMtime, outMtime) => decide (outMtime < srcMtime)
    | none => true
  else true

inductive CompileStep where
  | bundle (entry outfile : String)
  | reuse (outfile : String)
deriving DecidableEq

/-- Module resolution for an API handler: bundle exactly when
`apiNeedsBundle` says so, requiring the compiled artifact either way. -/
def apiResolveStep (root tempDir component : String)
    (artifactExists : Bool) (stats : Option (Int × Int)) : CompileStep :=
  let outfile := compiledApiPath root tempDir component
  if apiNeedsBundle artifactExists stats then .bundle component outfile
  else .reuse outfile

/-- Module resolution for a page (dev.ts 1267–1275): `safeBundleServer` is
awaited on every request — the artifact's existence and the modification
times, though available, are never consulted. -/
def pageResolveStep (tempDir component : String)
    (_artifactExists : Bool) (_stats : Option (Int × Int)) : CompileStep :=
  .bundle component (compiledServerPath tempDir component)

/-! ### API handler export resolution (`src/server/dev.ts`, 922–1058)

Handler functions are abstracted as opaque string labels; a module value is
either directly a function (`module.exports = fn`) or an export object. -/

structure ApiModuleObj where
  defaultExport : Option String := none
  GET : Option String := none
  POST : Option String := none
  PUT : Option String := none
  PATCH : Option String := none
  DELETE : Option String := none
  OPTIONS : Option String := none
deriving DecidableEq

inductive ModuleVal where
  | fn (f : String)
  | obj (m : ApiModuleObj)
deriving DecidableEq

/-- `mod[name]` for the six HTTP-method export names. -/
def methodExport (m : ApiModuleObj) : String → Option String
  | "GET" => m.GET
  | "POST" => m.POST
  | "PUT" => m.PUT
  | "PATCH" => m.PATCH
  | "DELETE" => m.DELETE
  | "OPTIONS" => m.OPTIONS
  | _ => none

/-- Property lookup on a JavaScript object modelled as an association list. -/
def lookupKey (obj : List (String × String)) (k : String) : Option String :=
  (obj.find? (fun p => p.1 = k)).map (fun p => p.2)

/-- Embedding of `resolveHandler` (dev.ts 922–937).  The source returns
`{ default: mod }` for a function module, `{ default: mod.default }` whenever
a default export exists — before ever inspecting the method-named exports —
and otherwise the object of method-named exports, or `null` when empty. -/
def resolveHandler (mod : Option ModuleVal) : Option (List (String × String)) :=
  match mod with
  | none => none
  | some (.fn f) => some [("default", f)]
  | some (.obj m) =>
    match m.defaultExport with
    | some f => some [("default", f)]
    | none =>
      let methods := ["GET", "POST", "PUT", "PATCH", "DELETE", "OPTIONS"]
      let out := methods.filterMap
        (fun name => (methodExport m name).map (fun f => (name, f)))
      if out.length ≠ 0 then some out else none

inductive ApiSelection where
  | handler (f : String)
  | methodNotAllowed (status : Nat)
deriving DecidableEq

/-- The dispatch preference of `handleApiRoute` (dev.ts 1024–1058):
`handlerObj[method]` first, then `handlerObj.default`, else a 405. -/
def selectApiHandler (mod : Option ModuleVal) (method : String) : ApiSelection :=
  let handlerObj := resolveHandler mod
  match handlerObj.bind (fun h => lookupKey h method) with
  | some f => .handler f
  | none =>
    match handlerObj.bind (fun h => lookupKey h "default") with
    | some f => .handler f
    | none => .methodNotAllowed 405

/-! ### Responses and the page-render error handler

`SatsetResponse` (`src/core/response.ts`), `sendSatsetResponse`
(`src/server/response.ts`, 131–155 — the `Location`, null-body and
string-body branches; buffer/stream bodies lie outside the modelled
fragment), and the `catch` block of `handlePageRoute`
(`src/server/dev.ts`, 1433–1556). -/

structure SatsetResp where
  body : Option String
  status : Nat
  headers : List (String × String)
deriving DecidableEq

/-- `SatsetResponse.redirect(url, status = 307)` (core/response.ts 42–44). -/
def satsetRedirect (url : String) (status : Nat) : SatsetResp :=
  { body := none, status := status, headers := [("Location", url)] }

structure NodeResp where
  status : Nat
  headers : List (String × String)
  body : Option String
deriving DecidableEq

/-- JavaScript truthiness of a possibly absent string property. -/
def jsTruthyStr : Option String → Bool
  | some s => s ≠ ""
  | none => false

/-- Embedding of `sendSatsetResponse`: a truthy `Location` header sends the
status and headers with no body (`res.end()`), a null body likewise; a string
body is sent with a defaulted `Content-Type`.  `satRes.status || 200` maps a
zero status to 200. -/
def sendSatsetResponse (satRes : SatsetResp) : NodeResp :=
  let headers := satRes.headers
  let status := if satRes.status = 0 then 200 else satRes.status
  if jsTruthyStr (lookupKey headers "Location") then
    { status := status, headers := headers, body := none }
  else
    match satRes.body with
    | none => { status := status, headers := headers, body := none }
    | some b =>
      let headers2 :=
        if lookupKey headers "Content-Type" = none then
          objInsert headers "Content-Type" "text/plain; charset=utf-8"
        else headers
      { status := status, headers := headers2, body := some b }

/-- A conventional error field value: a JavaScript number, or some other
non-nullish value (`nonNum`); an absent or nullish field is `none` at the
use sites. -/
inductive JsVal where
  | num (n : Int)
  | nonNum
deriving DecidableEq

/-- The payload of `err.__SATSET_REDIRECT` as read by dev.ts 1436–1442:
`url` is `some` exactly when the field holds a string, `status` is `some`
exactly when the field holds a number. -/
structure RedirectInfo where
  url : Option String := none
  status : Option Int := none
deriving DecidableEq

/-- A value thrown during page rendering, as inspected by the `catch` block:
the `__SATSET_REDIRECT` payload if truthy, the `__SATSET_NOT_FOUND` marker,
and the conventional status fields. -/
structure ThrownError where
  redirectInfo : Option RedirectInfo := none
  notFound : Bool := false
  statusCode : Option JsVal := none
  status : Option JsVal := none
  code : Option JsVal := none
deriving DecidableEq

/-- What the render attempt (layout composition plus
`renderComponentToHtml`) produced: markup, or a thrown value. -/
inductive RenderOutcome where
  | ok (markup : String)
  | threw (err : ThrownError)

/-- The response decision of `handlePageRoute` after the render attempt:
a final HTML document around `pageHTML` with the chosen status
(`res.writeHead(statusCode)`), a redirect response sent through
`sendSatsetResponse`, or the diagnostic error overlay (sent with status
500). -/
inductive PageDispatchResult where
  | html (status : Nat) (pageHTML : String)
  | redirectSent (resp : NodeResp)
  | overlay (status : Nat)
deriving DecidableEq

/-- The status classification of dev.ts 1471–1480:
`err.statusCode ?? err.status ?? (typeof err.code === 'number' ? err.code :
undefined)`, accepted only when it is a number between 400 and 599,
otherwise 500. -/
def classifyErrorStatus (err : ThrownError) : Nat :=
  let maybeStatus : Option JsVal :=
    match err.statusCode with
    | some v => some v
    | none =>
      match err.status with
      | some v => some v
      | none =>
        match err.code with
        | some (.num n) => some (.num n)
        | _ => none
  match maybeStatus with
  | some (.num n) => if 400 ≤ n ∧ n ≤ 599 then n.toNat else 500
  | _ => 500

/-- `/${statusCode}`. -/
def natPath (n : Nat) : String :=
  "/" ++ toString n

/-- The candidate error-page paths pushed by dev.ts 1487–1491: `/<code>`,
then `/404` and `/not-found` only when the code is 404, then `/500` only
when it is 500, then `/error`. -/
def errorPageCandidates (statusCode : Nat) : List String :=
  [natPath statusCode] ++
  (if statusCode = 404 then ["/404", "/not-found"] else []) ++
  (if statusCode = 500 then ["/500"] else []) ++
  ["/error"]

/-- The candidate loop of dev.ts 1493–1500: the first candidate path with a
registered route wins. -/
def selectErrorRoute (sc : Nat) (allRoutes : List Route) : Option Route :=
  (errorPageCandidates sc).findSome? (fun p => allRoutes.find? (fun r => r.path = p))

/-- The `catch` block of `handlePageRoute` (dev.ts 1433–1556) together with
the final send.  `renderPage` stands for the external
compile-require-render collaborator applied to a registered error or
not-found page (`none` models any failure in that pipeline, which the source
catches).  A thrown redirect is answered through
`SatsetResponse.redirect`/`sendSatsetResponse` before any such rendering; a
thrown not-found renders the registered `/404` or `/not-found` page (or a
literal fallback body) with status 404; any other thrown value is classified
by `classifyErrorStatus`, answered by the first registered candidate error
page under that status, and otherwise by the overlay, which is always sent
with status 500. -/
def dispatchRender (outcome : RenderOutcome) (allRoutes : List Route)
    (renderPage : Route → Option String) : PageDispatchResult :=
  match outcome with
  | .ok markup => .html 200 markup
  | .threw err =>
    match err.redirectInfo with
    | some info =>
      let url := match info.url with
        | some u => if u ≠ "" then u else "/"
        | none => "/"
      let status := match info.status with
        | some n => n.toNat
        | none => 307
      .redirectSent (sendSatsetResponse (satsetRedirect url status))
    | none =>
      if err.notFound then
        let nf := match allRoutes.find? (fun r => r.path = "/404") with
          | some r => some r
          | none => allRoutes.find? (fun r => r.path = "/not-found")
        match nf with
        | some r =>
          if r.component ≠ "" then
            match renderPage r with
            | some h => .html 404 h
            | none => .html 404 "<h1>404 - Page Not Found</h1>"
          else .html 404 "<h1>404 - Page Not Found</h1>"
        | none => .html 404 "<h1>404 - Page Not Found</h1>"
      else
        let sc := classifyErrorStatus err
        match selectErrorRoute sc allRoutes with
        | some r =>
          if r.component ≠ "" then
            match renderPage r with
            | some h => .html sc h
            | none => .overlay 500
          else .overlay 500
        | none => .overlay 500

/-! ### Lemmas about the string primitives -/

theorem splitChars_ne_nil (sep : Char) (l : List Char) : splitChars sep l ≠ [] := by
  cases l with
  | nil => simp [splitChars]
  | cons c cs =>
    simp only [splitChars]
    cases h : splitChars sep cs with
    | nil => simp
    | cons g gs =>
      by_cases hc : c = sep <;> simp [hc]

theorem sep_not_mem_of_mem_splitChars (sep : Char) :
    ∀ (l : List Char), ∀ g ∈ splitChars sep l, sep ∉ g := by
  intro l
  induction l with
  | nil =>
    intro g hg
    simp [splitChars] at hg
    simp [hg]
  | cons c cs ih =>
    intro g hg
    simp only [splitChars] at hg
    cases h : splitChars sep cs with
    | nil => exact absurd h (splitChars_ne_nil sep cs)
    | cons g0 gs =>
      rw [h] at hg
      by_cases hc : c = sep
      · simp only [hc, if_pos rfl] at hg
        rcases List.mem_cons.mp hg with hg | hg
        · simp [hg]
        · exact ih g (h ▸ hg)
      · simp only [if_neg hc] at hg
        rcases List.mem_cons.mp hg with hg | hg
        · subst hg
          intro hmem
          rcases List.mem_cons.mp hmem with h1 | h1
          · exact hc h1.symm
          · exact ih g0 (h ▸ List.mem_cons_self g0 gs) h1
        · exact ih g (h ▸ List.mem_cons.mpr (Or.inr hg))

theorem mem_of_mem_splitChars (sep : Char) :
    ∀ (l : List Char), ∀ g ∈ splitChars sep l, ∀ c ∈ g, c ∈ l := by
  intro l
  induction l with
  | nil =>
    intro g hg c hc
    simp [splitChars] at hg
    subst hg
    simp at hc
  | cons a as ih =>
    intro g hg c hc
    simp only [splitChars] at hg
    cases h : splitChars sep as with
    | nil => exact absurd h (splitChars_ne_nil sep as)
    | cons g0 gs =>
      rw [h] at hg
      by_cases ha : a = sep
      · simp only [ha, if_pos rfl] at hg
        rcases List.mem_cons.mp hg with hg | hg
        · subst hg; simp at hc
        · exact List.mem_cons.mpr (Or.inr (ih g (h ▸ hg) c hc))
      · simp only [if_neg ha] at hg
        rcases List.mem_cons.mp hg with hg | hg
        · subst hg
          rcases List.mem_cons.mp hc with h1 | h1
          · exact List.mem_cons.mpr (Or.inl h1)
          · exact List.mem_cons.mpr
              (Or.inr (ih g0 (h ▸ List.mem_cons_self g0 gs) c h1))
        · exact List.mem_cons.mpr
            (Or.inr (ih g (h ▸ List.mem_cons.mpr (Or.inr hg)) c hc))

theorem splitChars_of_not_mem {sep : Char} {l : List Char} (h : sep ∉ l) :
    splitChars sep l = [l] := by
  induction l with
  | nil => simp [splitChars]
  | cons c cs ih =>
    have hc : c ≠ sep := fun he => h (he ▸ List.mem_cons_self c cs)
    have hcs : sep ∉ cs := fun hm => h (List.mem_cons.mpr (Or.inr hm))
    simp only [splitChars, ih hcs, if_neg hc]

theorem splitChars_append_sep {sep : Char} {g r : List Char} (h : sep ∉ g) :
    splitChars sep (g ++ sep :: r) = g :: splitChars sep r := by
  induction g with
  | nil =>
    simp only [List.nil_append, splitChars]
    cases hr : splitChars sep r with
    | nil => exact absurd hr (splitChars_ne_nil sep r)
    | cons g0 gs => simp
  | cons c cs ih =>
    have hc : c ≠ sep := fun he => h (he ▸ List.mem_cons_self c cs)
    have hcs : sep ∉ cs := fun hm => h (List.mem_cons.mpr (Or.inr hm))
    show splitChars sep (c :: (cs ++ sep :: r)) = (c :: cs) :: splitChars sep r
    simp only [splitChars, ih hcs, if_neg hc]

theorem splitChars_joinSeg {gs : List (List Char)} (hne : gs ≠ [])
    (h : ∀ g ∈ gs, '/' ∉ g) : splitChars '/' (joinSeg gs) = gs := by
  induction gs with
  | nil => exact absurd rfl hne
  | cons g gs ih =>
    cases gs with
    | nil =>
      simp only [joinSeg]
      exact splitChars_of_not_mem (h g (List.mem_cons_self g []))
    | cons g1 gs1 =>
      have hjoin : joinSeg (g :: g1 :: gs1) = g ++ '/' :: joinSeg (g1 :: gs1) := rfl
      rw [hjoin, splitChars_append_sep (h g (List.mem_cons_self g (g1 :: gs1)))]
      rw [ih (by simp) (fun x hx => h x (List.mem_cons.mpr (Or.inr hx)))]

theorem mem_of_mem_joinSeg {gs : List (List Char)} {c : Char}
    (hc : c ∈ joinSeg gs) : c = '/' ∨ ∃ g ∈ gs, c ∈ g := by
  induction gs with
  | nil => simp [joinSeg] at hc
  | cons g gs ih =>
    cases gs with
    | nil =>
      simp only [joinSeg] at hc
      exact Or.inr ⟨g, List.mem_cons_self g [], hc⟩
    | cons g1 gs1 =>
      have hjoin : joinSeg (g :: g1 :: gs1) = g ++ '/' :: joinSeg (g1 :: gs1) := rfl
      rw [hjoin] at hc
      rcases List.mem_append.mp hc with h1 | h1
      · exact Or.inr ⟨g, List.mem_cons_self g (g1 :: gs1), h1⟩
      · rcases List.mem_cons.mp h1 with h2 | h2
        · exact Or.inl h2
        · rcases ih h2 with h3 | ⟨g', hg', hcg'⟩
          · exact Or.inl h3
          · exact Or.inr ⟨g', List.mem_cons.mpr (Or.inr hg'), hcg'⟩

theorem takeWhile_eq_self_of {p : Char → Bool} {l : List Char}
    (h : ∀ c ∈ l, p c = true) : l.takeWhile p = l := by
  induction l with
  | nil => rfl
  | cons c cs ih =>
    rw [List.takeWhile_cons, if_pos (h c (List.mem_cons_self c cs)),
      ih (fun x hx => h x (List.mem_cons.mpr (Or.inr hx)))]

theorem mem_of_mem_takeWhile {p : Char → Bool} {l : List Char} {c : Char}
    (h : c ∈ l.takeWhile p) : c ∈ l ∧ p c = true := by
  induction l with
  | nil => simp at h
  | cons a as ih =>
    by_cases ha : p a = true
    · rw [List.takeWhile_cons, if_pos ha] at h
      rcases List.mem_cons.mp h with h1 | h1
      · exact ⟨List.mem_cons.mpr (Or.inl h1), h1 ▸ ha⟩
      · rcases ih h1 with ⟨h2, h3⟩
        exact ⟨List.mem_cons.mpr (Or.inr h2), h3⟩
    · rw [List.takeWhile_cons, if_neg ha] at h
      simp at h

/-- Every string produced by `segsOf` is nonempty and slash-free, and its
characters come from the original string. -/
theorem mem_segsOf_props {s t : String} (ht : t ∈ segsOf s) :
    t ≠ "" ∧ '/' ∉ t.data ∧ ∀ c ∈ t.data, c ∈ s.data := by
  rcases List.mem_filter.mp ht with ⟨hmem, hne⟩
  rcases List.mem_map.mp hmem with ⟨g, hg, hmk⟩
  refine ⟨by simpa using hne, ?_, ?_⟩
  · rw [← hmk]
    exact sep_not_mem_of_mem_splitChars '/' s.data g hg
  · intro c hc
    rw [← hmk] at hc
    exact mem_of_mem_splitChars '/' s.data g hg c hc

theorem segsOf_slashCons {l : List Char} :
    segsOf (⟨'/' :: l⟩ : String) = segsOf (⟨l⟩ : String) := by
  simp only [segsOf, jsSplit]
  have : splitChars '/' ('/' :: l) = [] :: splitChars '/' l := by
    simp only [splitChars]
    cases h : splitChars '/' l with
    | nil => exact absurd h (splitChars_ne_nil '/' l)
    | cons g gs => simp
  rw [this]
  simp

theorem data_slash_append (s : String) : ("/" ++ s).data = '/' :: s.data := by
  cases s with
  | mk l => rfl

theorem segsOf_slash_append (s : String) : segsOf ("/" ++ s) = segsOf s := by
  have h1 : ("/" ++ s) = (⟨'/' :: s.data⟩ : String) := by
    cases s with
    | mk l => rfl
  rw [h1, segsOf_slashCons]

theorem segsOf_slash_jsJoin {rest : List String} (hne : rest ≠ [])
    (h : ∀ t ∈ rest, t ≠ "" ∧ '/' ∉ t.data) :
    segsOf ("/" ++ jsJoin rest) = rest := by
  rw [segsOf_slash_append]
  have hsplit : splitChars '/' (joinSeg (rest.map String.data)) = rest.map String.data := by
    refine splitChars_joinSeg (by simpa using hne) ?_
    intro g hg
    rcases List.mem_map.mp hg with ⟨t, ht, hdata⟩
    rw [← hdata]
    exact (h t ht).2
  simp only [segsOf, jsSplit, jsJoin, hsplit]
  have hmap : (rest.map String.data).map (fun cs => (⟨cs⟩ : String)) = rest := by
    rw [List.map_map]
    have : (fun cs => (⟨cs⟩ : String)) ∘ String.data = id := by
      funext t
      cases t with
      | mk l => rfl
    rw [this, List.map_id]
  rw [hmap]
  refine List.filter_eq_self.mpr ?_
  intro t ht
  simpa using (h t ht).1

/-! ### Facts about `stripLocaleFromPath` needed for the idempotence analysis -/

/-- The four possible shapes of a value returned by `stripLocaleFromPath`. -/
theorem stripLocaleFromPath_shape (p : String) :
    stripLocaleFromPath p = "/" ∨
    (∃ rest : List String, rest ≠ [] ∧
      (∀ t ∈ rest, t ∈ segsOf (rawBeforeQueryHash p)) ∧
      stripLocaleFromPath p = "/" ++ jsJoin rest) ∨
    (startsWithSlash (rawBeforeQueryHash p) = true ∧
      segsOf (rawBeforeQueryHash p) ≠ [] ∧
      stripLocaleFromPath p = rawBeforeQueryHash p) ∨
    (segsOf (rawBeforeQueryHash p) ≠ [] ∧
      stripLocaleFromPath p = "/" ++ rawBeforeQueryHash p) := by
  unfold stripLocaleFromPath
  split
  · exact Or.inl rfl
  · split
    · exact Or.inl rfl
    · next first rest hseg =>
      split
      · split
        · exact Or.inl rfl
        · next hrest =>
          refine Or.inr (Or.inl ⟨rest, hrest, ?_, rfl⟩)
          intro t ht
          rw [hseg]
          exact List.mem_cons.mpr (Or.inr ht)
      · split
        · next hsw =>
          exact Or.inr (Or.inr (Or.inl ⟨hsw, by simp [hseg], rfl⟩))
        · exact Or.inr (Or.inr (Or.inr ⟨by simp [hseg], rfl⟩))

theorem rawBeforeQueryHash_no_query (p : String) :
    '?' ∉ (rawBeforeQueryHash p).data ∧ '#' ∉ (rawBeforeQueryHash p).data := by
  constructor
  · intro h
    have h1 : '?' ∈ p.data.takeWhile (fun c => c ≠ '?') :=
      (mem_of_mem_takeWhile h).1
    have h2 := (mem_of_mem_takeWhile h1).2
    simp at h2
  · intro h
    have h2 := (mem_of_mem_takeWhile h).2
    simp at h2

/-- Every character of `stripLocaleFromPath p` is a slash or a character of
the raw (query/hash-free) input. -/
theorem mem_data_stripLocaleFromPath (p : String) :
    ∀ c ∈ (stripLocaleFromPath p).data, c = '/' ∨ c ∈ (rawBeforeQueryHash p).data := by
  intro c hc
  rcases stripLocaleFromPath_shape p with h | ⟨rest, _, hsub, h⟩ | ⟨_, _, h⟩ | ⟨_, h⟩
  · rw [h] at hc
    simp_all [String.data]
  · rw [h, data_slash_append] at hc
    rcases List.mem_cons.mp hc with h1 | h1
    · exact Or.inl h1
    · have h2 : c ∈ joinSeg (rest.map String.data) := h1
      rcases mem_of_mem_joinSeg h2 with h3 | ⟨g, hg, hcg⟩
      · exact Or.inl h3
      · rcases List.mem_map.mp hg with ⟨t, ht, hdata⟩
        have h4 := (mem_segsOf_props (hsub t ht)).2.2
        exact Or.inr (h4 c (hdata ▸ hcg))
  · rw [h] at hc
    exact Or.inr hc
  · rw [h, data_slash_append] at hc
    rcases List.mem_cons.mp hc with h1 | h1
    · exact Or.inl h1
    · exact Or.inr h1

theorem stripLocaleFromPath_no_query_hash (p : String) :
    '?' ∉ (stripLocaleFromPath p).data ∧ '#' ∉ (stripLocaleFromPath p).data := by
  constructor
  · intro h
    rcases mem_data_stripLocaleFromPath p '?' h with h1 | h1
    · simp at h1
    · exact (rawBeforeQueryHash_no_query p).1 h1
  · intro h
    rcases mem_data_stripLocaleFromPath p '#' h with h1 | h1
    · simp at h1
    · exact (rawBeforeQueryHash_no_query p).2 h1

theorem stripLocaleFromPath_head_slash (p : String) :
    (stripLocaleFromPath p).data.head? = some '/' := by
  rcases stripLocaleFromPath_shape p with h | ⟨rest, _, _, h⟩ | ⟨hsw, _, h⟩ | ⟨_, h⟩
  · rw [h]; rfl
  · rw [h, data_slash_append]; rfl
  · rw [h]
    unfold startsWithSlash at hsw
    rcases hd : (rawBeforeQueryHash p).data with _ | ⟨c, cs⟩
    · rw [hd] at hsw; simp at hsw
    · rw [hd] at hsw
      simp only [decide_eq_true_eq] at hsw
      rw [hsw]
      rfl
  · rw [h, data_slash_append]; rfl

theorem stripLocaleFromPath_eq_root_of_segs_nil (p : String)
    (h : segsOf (stripLocaleFromPath p) = []) : stripLocaleFromPath p = "/" := by
  rcases stripLocaleFromPath_shape p with hs | ⟨rest, hne, hsub, hs⟩ | ⟨_, hne, hs⟩ | ⟨hne, hs⟩
  · exact hs
  · exfalso
    rw [hs, segsOf_slash_jsJoin hne
      (fun t ht => ⟨(mem_segsOf_props (hsub t ht)).1, (mem_segsOf_props (hsub t ht)).2.1⟩)] at h
    exact hne h
  · exfalso
    rw [hs] at h
    exact hne h
  · exfalso
    rw [hs, segsOf_slash_append] at h
    exact hne h

theorem startsWithSlash_of_head {s : String} (h : s.data.head? = some '/') :
    startsWithSlash s = true := by
  unfold startsWithSlash
  rcases hd : s.data with _ | ⟨c, cs⟩
  · rw [hd] at h; simp at h
  · rw [hd] at h
    simp at h
    simp [h]

/-! ### Claim C1 -/

/-- Claim C1, corrected.  `stripLocaleFromPath` is idempotent on every path
whose stripped form does not itself begin with a locale-shaped segment (the
head segment fails the two-letter / two-letter-dash-two-letter pattern, or
the stripped form is the bare root).  The unrestricted claim is refuted by
`claim_C1_counterexample`: a path whose second segment is also locale-shaped
loses that segment on the second strip. -/
theorem claim_C1_strip_idempotent_amended (p : String)
    (h : Option.all (fun f => !localeTest f)
      (segsOf (stripLocaleFromPath p)).head? = true) :
    stripLocaleFromPath (stripLocaleFromPath p) = stripLocaleFromPath p := by
  have hq := (stripLocaleFromPath_no_query_hash p).1
  have hh := (stripLocaleFromPath_no_query_hash p).2
  have hhead := stripLocaleFromPath_head_slash p
  set s := stripLocaleFromPath p with hs
  have hne : s ≠ "" := by
    intro he
    rw [he] at hhead
    simp [String.data] at hhead
  have hraw : rawBeforeQueryHash s = s := by
    unfold rawBeforeQueryHash
    have h1 : s.data.takeWhile (fun c => c ≠ '?') = s.data :=
      takeWhile_eq_self_of (fun c hc => decide_eq_true (fun he => hq (he ▸ hc)))
    rw [h1]
    have h2 : s.data.takeWhile (fun c => c ≠ '#') = s.data :=
      takeWhile_eq_self_of (fun c hc => decide_eq_true (fun he => hh (he ▸ hc)))
    rw [h2]
  conv_lhs => rw [stripLocaleFromPath]
  rw [if_neg hne, hraw]
  cases hseg : segsOf s with
  | nil =>
    exact (stripLocaleFromPath_eq_root_of_segs_nil p hseg).symm
  | cons first rest =>
    have hlf : localeTest first = false := by
      rw [hseg] at h
      simpa [Option.all] using h
    show (if localeTest first = true then
        if rest = [] then "/" else "/" ++ jsJoin rest
      else if startsWithSlash s = true then s else "/" ++ s) = s
    rw [if_neg (by simp [hlf]), if_pos (startsWithSlash_of_head hhead)]

/-- Claim C1, counterexample to the unrestricted statement: stripping
`"/en/de"` once yields `"/de"`, whose own first segment is again
locale-shaped, so a second strip yields `"/"`. -/
theorem claim_C1_counterexample :
    stripLocaleFromPath (stripLocaleFromPath "/en/de") ≠
      stripLocaleFromPath "/en/de" := by
  decide

/-- Witness for `claim_C1_strip_idempotent_amended` at `"/en/docs/setup"`. -/
theorem claim_C1_witness :
    Option.all (fun f => !localeTest f)
      (segsOf (stripLocaleFromPath "/en/docs/setup")).head? = true ∧
    stripLocaleFromPath (stripLocaleFromPath "/en/docs/setup") =
      stripLocaleFromPath "/en/docs/setup" :=
  ⟨by decide, claim_C1_strip_idempotent_amended "/en/docs/setup" (by decide)⟩

/-! ### Lemmas for the catch-all matcher -/

theorem findIdx_append_singleton {p : String → Bool} {pre : List String} {x : String}
    (hpre : ∀ s ∈ pre, p s = false) (hx : p x = true) :
    (pre ++ [x]).findIdx p = pre.length := by
  induction pre with
  | nil => simp [List.findIdx_cons, hx]
  | cons a l ih =>
    have ha : p a = false := hpre a (List.mem_cons_self a l)
    simp [List.findIdx_cons, ha,
      ih (fun s hs => hpre s (List.mem_cons.mpr (Or.inr hs)))]

theorem getD_append_singleton (pre : List String) (x d : String) :
    (pre ++ [x]).getD pre.length d = x := by
  induction pre with
  | nil => rfl
  | cons a l ih => simp [ih]

/-- The index-range prefix check of `matchDynamicRoute` succeeds exactly when
the path's first `pre.length` segments are `pre`. -/
theorem prefixCheck_iff (pre : List String) (x : String) :
    ∀ ps : List String,
      (((List.range pre.length).all
        (fun i => decide (ps[i]? = (pre ++ [x])[i]?))) = true) ↔
      ps.take pre.length = pre := by
  induction pre with
  | nil => intro ps; simp
  | cons a l ih =>
    intro ps
    cases ps with
    | nil =>
      simp only [List.length_cons]
      constructor
      · intro h
        rw [List.range_succ_eq_map, List.all_cons, Bool.and_eq_true] at h
        obtain ⟨h0, _⟩ := h
        simp at h0
      · intro h
        simp at h
    | cons q qs =>
      simp only [List.length_cons]
      rw [List.range_succ_eq_map, List.all_cons, Bool.and_eq_true]
      have hfun : ((fun i => decide ((q :: qs)[i]? = ((a :: l) ++ [x])[i]?)) ∘ Nat.succ) =
          (fun i => decide (qs[i]? = (l ++ [x])[i]?)) := by
        funext i
        simp only [Function.comp_apply, List.cons_append, List.getElem?_cons_succ]
      constructor
      · intro h
        obtain ⟨h0, h1⟩ := h
        have hq : q = a := by simpa using h0
        rw [List.all_map, hfun] at h1
        have h2 := (ih qs).mp h1
        simp [List.take_succ_cons, hq, h2]
      · intro h
        rw [List.take_succ_cons] at h
        have hq : q = a := (List.cons.injEq q (qs.take l.length) a l ▸ h).1
        have htail : qs.take l.length = l := (List.cons.injEq q (qs.take l.length) a l ▸ h).2
        refine ⟨by simpa using hq, ?_⟩
        rw [List.all_map, hfun]
        exact (ih qs).mpr htail

theorem length_le_of_take_eq {ps pre : List String} (h : ps.take pre.length = pre) :
    pre.length ≤ ps.length := by
  have h1 := congrArg List.length h
  rw [List.length_take] at h1
  omega

theorem data_head_of_jsStartsWith_star {s : String} (h : jsStartsWith s "*" = true) :
    ∃ cs, s.data = '*' :: cs := by
  unfold jsStartsWith at h
  have hstar : ("*" : String).data = ['*'] := rfl
  rw [hstar] at h
  rcases hd : s.data with _ | ⟨c, cs⟩
  · rw [hd] at h
    simp [List.isPrefixOf] at h
  · rw [hd] at h
    simp [List.isPrefixOf] at h
    subst h
    exact ⟨cs, rfl⟩

/-! ### Claim C6 -/

/-- Claim C6, confirmed.  For a catch-all route (segments `pre ++ [star]`
with `star` the first `*`-segment): the matcher demands that the path's
segments before the catch-all position literally equal `pre`, and then binds
the remaining tail joined by `'/'` — which is the empty string when no tail
exists, for required and optional catch-alls alike.  The concrete conjuncts
are the spec's examples `/docs/*path` against `/docs/a/b/c`, the optional
`/shop/*path` against `/shop`, and the required `/docs/*path` against
`/docs`. -/
theorem claim_C6_catch_all_matching :
    (∀ (routePath : String) (pre : List String) (star : String) (opt : Bool)
        (pathname : String),
      segsOf routePath = pre ++ [star] →
      jsStartsWith star "*" = true →
      (∀ s ∈ pre, jsStartsWith s "*" = false) →
      matchDynamicRoute pathname routePath opt =
        (if (segsOf pathname).take pre.length = pre then
          some [(cleanCatchAllName star, jsJoin ((segsOf pathname).drop pre.length))]
        else none)) ∧
    matchRoute "/docs/a/b/c" [docsCatchAllRoute] =
      some (docsCatchAllRoute, [("path", "a/b/c")]) ∧
    matchRoute "/shop" [shopOptionalRoute] =
      some (shopOptionalRoute, [("path", "")]) ∧
    matchRoute "/docs" [docsCatchAllRoute] =
      some (docsCatchAllRoute, [("path", "")]) := by
  refine ⟨?_, by decide, by decide, by decide⟩
  intro routePath pre star opt pathname h1 h2 h3
  obtain ⟨cs, hcs⟩ := data_head_of_jsStartsWith_star h2
  have hstarmem : star ∈ segsOf routePath := by
    rw [h1]
    exact List.mem_append.mpr (Or.inr (List.mem_cons_self star []))
  have hinc : jsIncludesChar routePath '*' = true := by
    unfold jsIncludesChar
    have hsub := (mem_segsOf_props hstarmem).2.2
    have h4 : '*' ∈ star.data := by
      rw [hcs]
      exact List.mem_cons_self '*' cs
    simpa using hsub '*' h4
  unfold matchDynamicRoute
  rw [if_pos hinc, h1, findIdx_append_singleton h3 h2]
  simp only [getD_append_singleton]
  by_cases htake : (segsOf pathname).take pre.length = pre
  · rw [if_pos ((prefixCheck_iff pre star (segsOf pathname)).mpr htake),
      if_pos htake]
    by_cases hlen : (segsOf pathname).length ≤ pre.length
    · have hlen2 : pre.length ≤ (segsOf pathname).length := length_le_of_take_eq htake
      have hdrop : (segsOf pathname).drop pre.length = [] := by
        apply List.drop_eq_nil_of_le
        omega
      rw [hdrop]
      have hjoin : jsJoin ([] : List String) = "" := rfl
      by_cases hopt : opt = true
      · rw [hopt]
        simp [hlen, objInsert, hjoin]
      · have hopt2 : opt = false := by
          cases opt
          · rfl
          · exact absurd rfl hopt
        rw [hopt2]
        simp [objInsert, hjoin]
    · have hcond : (decide ((segsOf pathname).length ≤ pre.length) && opt) = false := by
        simp [hlen]
      rw [hcond]
      simp [objInsert]
  · rw [if_neg (fun hc => htake ((prefixCheck_iff pre star (segsOf pathname)).mp hc)),
      if_neg htake]

/-- Witness for the universally quantified part of
`claim_C6_catch_all_matching` at `/files/*rest` against `/files/a/b`. -/
theorem claim_C6_witness :
    matchDynamicRoute "/files/a/b" "/files/*rest" false = some [("rest", "a/b")] := by
  have h := claim_C6_catch_all_matching.1 "/files/*rest" ["files"] "*rest" false
    "/files/a/b" (by decide) (by decide) (by decide)
  exact h.trans (by decide)

/-! ### Claim C7 -/

/-- Claim C7, confirmed.  `matchRoute` returns the first route of the table,
in discovery order, that is structurally compatible with the pathname
(`firstCompatible` over the spec-side compatibility test `routeMatches`);
and with `/blog/:slug` registered before `/blog/featured`, the request
`/blog/featured` matches the dynamic route, binding `slug = "featured"`. -/
theorem claim_C7_first_match_wins :
    (∀ (pathname : String) (routes : List Route),
      matchRoute pathname routes = firstCompatible pathname routes) ∧
    matchRoute "/blog/featured" [blogSlugRoute, blogFeaturedRoute] =
      some (blogSlugRoute, [("slug", "featured")]) := by
  refine ⟨?_, by decide⟩
  intro pathname routes
  induction routes with
  | nil => rfl
  | cons r rest ih =>
    simp only [matchRoute, firstCompatible, routeMatches]
    by_cases hd : truthy r.dynamic = true
    · simp only [hd, if_true]
      cases matchDynamicRoute pathname r.path (truthy r.catchAllOptional) with
      | none => simpa using ih
      | some m => rfl
    · simp only [Bool.not_eq_true] at hd
      simp only [hd, Bool.false_eq_true, if_false]
      by_cases he : truthy r.exact = true
      · simp only [he, if_true]
        by_cases hp : pathname = r.path
        · simp [hp]
        · simp [hp, ih]
      · simp only [Bool.not_eq_true] at he
        simp only [he, Bool.false_eq_true, if_false]
        by_cases hs : jsStartsWith pathname r.path = true
        · simp [hs]
        · simp only [Bool.not_eq_true] at hs
          simp [hs, ih]

/-! ### Claim C10 -/

/-- Every route pushed by `scanApiDirectory` leaves `exact` unset.
(Proved mutually with the single-entry scan by structural descent.) -/
theorem scanApiDirectory_exact_none :
    ∀ (entries : List FsEntry) (dirPath pfx : String),
      ∀ r ∈ scanApiDirectory dirPath pfx entries, r.exact = none
  | [] => by
      intro dirPath pfx r hr
      simp [scanApiDirectory] at hr
  | .dir name children :: rest => by
      intro dirPath pfx r hr
      simp only [scanApiDirectory, scanApiEntry] at hr
      rcases List.mem_append.mp hr with h | h
      · split at h
        · exact scanApiDirectory_exact_none children _ _ r h
        · split at h
          · exact scanApiDirectory_exact_none children _ _ r h
          · split at h
            · exact scanApiDirectory_exact_none children _ _ r h
            · exact scanApiDirectory_exact_none children _ _ r h
      · exact scanApiDirectory_exact_none rest dirPath pfx r h
  | .file name :: rest => by
      intro dirPath pfx r hr
      simp only [scanApiDirectory, scanApiEntry] at hr
      rcases List.mem_append.mp hr with h | h
      · split at h
        · rcases List.mem_singleton.mp h with h2
          rw [h2]
          rfl
        · simp at h
      · exact scanApiDirectory_exact_none rest dirPath pfx r h

/-- Claim C10, confirmed.  A non-dynamic route whose `exact` flag is unset or
`false` matches, with empty params, any pathname extending the route's path
as a raw string prefix; `scanApiDirectory` never sets `exact`, so every
discovered API route behaves this way — concretely, the discovered static
route `/api/users` also matches the pathname `/api/users-admin`. -/
theorem claim_C10_prefix_match :
    (∀ (entries : List FsEntry) (dirPath pfx : String),
      ∀ r ∈ scanApiDirectory dirPath pfx entries, r.exact = none) ∧
    (∀ (r : Route) (pathname : String) (rest : List Route),
      truthy r.dynamic = false → truthy r.exact = false →
      jsStartsWith pathname r.path = true →
      matchRoute pathname (r :: rest) = some (r, [])) ∧
    matchRoute "/api/users-admin"
        (scanApiDirectory "src/app/api" "/api" [.dir "users" [.file "route.ts"]]) =
      some ({ path := "/api/users", component := "src/app/api/users/route.ts",
              dynamic := some false, params := some [] }, []) := by
  refine ⟨scanApiDirectory_exact_none, ?_, by decide⟩
  intro r pathname rest hdyn hexact hsw
  simp [matchRoute, hdyn, hexact, hsw]

/-- Witness for `claim_C10_prefix_match` at a non-exact static route. -/
theorem claim_C10_witness :
    matchRoute "/api/users-admin"
      [{ path := "/api/users", component := "c", dynamic := some false,
         params := some [] }] =
      some ({ path := "/api/users", component := "c", dynamic := some false,
              params := some [] }, []) :=
  claim_C10_prefix_match.2.1
    { path := "/api/users", component := "c", dynamic := some false, params := some [] }
    "/api/users-admin" [] (by decide) (by decide) (by decide)

/-! ### Claim C5 -/

/-- Claim C5, confirmed.  The dispatch tail tries the API table first for
every path: an API match ends dispatch as `apiHandle` regardless of the page
table, and a path under `/api/` with no API match is a terminal 404 that
never consults the page table — concretely, `/api/missing` is a 404 even
though a registered page-side catch-all structurally matches it. -/
theorem claim_C5_api_namespace_closure :
    (∀ (path : String) (apiRoutes routes : List Route) (r : Route)
        (ps : List (String × String)),
      matchRoute path apiRoutes = some (r, ps) →
      dispatchRoutes path apiRoutes routes = .apiHandle r ps) ∧
    (∀ (path : String) (apiRoutes routes : List Route),
      jsStartsWith path "/api/" = true →
      matchRoute path apiRoutes = none →
      dispatchRoutes path apiRoutes routes = .apiNotFound 404) ∧
    dispatchRoutes "/api/missing"
        (scanApiDirectory "src/app/api" "/api" [.dir "users" [.file "route.ts"]])
        [catchAllPageRoute] = .apiNotFound 404 ∧
    matchRoute "/api/missing" [catchAllPageRoute] ≠ none := by
  refine ⟨?_, ?_, by decide, by decide⟩
  · intro path apiRoutes routes r ps h
    simp [dispatchRoutes, h]
  · intro path apiRoutes routes hsw hnone
    simp [dispatchRoutes, hnone, hsw]

/-- Witness for `claim_C5_api_namespace_closure`. -/
theorem claim_C5_witness :
    dispatchRoutes "/api/users"
        [{ path := "/api/users", component := "c", dynamic := some false,
           params := some [] }] [catchAllPageRoute] =
      .apiHandle
        { path := "/api/users", component := "c", dynamic := some false,
          params := some [] } [] ∧
    dispatchRoutes "/api/nope" [] [catchAllPageRoute] = .apiNotFound 404 :=
  ⟨claim_C5_api_namespace_closure.1 "/api/users" _ [catchAllPageRoute] _ []
      (by decide),
    claim_C5_api_namespace_closure.2.1 "/api/nope" [] [catchAllPageRoute]
      (by decide) (by decide)⟩

/-! ### String append cancellation (for the artifact-path claims) -/

theorem string_append_left_cancel (s : String) {a b : String}
    (h : s ++ a = s ++ b) : a = b := by
  have h2 := congrArg String.data h
  rw [String.data_append, String.data_append] at h2
  have h3 := List.append_cancel_left h2
  cases a with
  | mk la =>
    cases b with
    | mk lb => exact congrArg String.mk (by simpa using h3)

theorem string_append_right_cancel (s : String) {a b : String}
    (h : a ++ s = b ++ s) : a = b := by
  have h2 := congrArg String.data h
  rw [String.data_append, String.data_append] at h2
  have h3 := List.append_cancel_right h2
  cases a with
  | mk la =>
    cases b with
    | mk lb => exact congrArg String.mk (by simpa using h3)

/-! ### Claim C2 -/

/-- Claim C2, counterexample: two distinct page modules that share the base
name `page.tsx` compile to the same artifact path — `handlePageRoute`
derives the artifact name from `path.basename` alone. -/
theorem claim_C2_counterexample :
    compiledServerPath "/proj/.satset/temp" "/proj/src/app/a/page.tsx" =
      compiledServerPath "/proj/.satset/temp" "/proj/src/app/b/page.tsx" ∧
    ("/proj/src/app/a/page.tsx" : String) ≠ "/proj/src/app/b/page.tsx" := by
  decide

/-- Claim C2, corrected.  Only the API handler artifact path is derived from
a root-relative key: distinct sanitised keys give distinct artifact paths,
and the two same-base-name `route.ts` files in different directories do get
distinct keys.  The page-module artifact path, by contrast, depends only on
the component's base name, so any two `page.tsx` in different directories
alias (the aliasing instance is `claim_C2_counterexample`). -/
theorem claim_C2_artifact_keys_amended :
    (∀ tempDir c1 c2 : String, pathBasename c1 = pathBasename c2 →
      compiledServerPath tempDir c1 = compiledServerPath tempDir c2) ∧
    (∀ root tempDir c1 c2 : String,
      safeComponentKey root c1 ≠ safeComponentKey root c2 →
      compiledApiPath root tempDir c1 ≠ compiledApiPath root tempDir c2) ∧
    (safeComponentKey "/proj" "/proj/src/api/users/route.ts" ≠
        safeComponentKey "/proj" "/proj/src/api/posts/route.ts" ∧
      pathBasename "/proj/src/api/users/route.ts" =
        pathBasename "/proj/src/api/posts/route.ts" ∧
      compiledApiPath "/proj" "/t" "/proj/src/api/users/route.ts" ≠
        compiledApiPath "/proj" "/t" "/proj/src/api/posts/route.ts") := by
  refine ⟨?_, ?_, by decide⟩
  · intro tempDir c1 c2 h
    unfold compiledServerPath
    rw [h]
  · intro root tempDir c1 c2 hne heq
    apply hne
    unfold compiledApiPath pathJoin at heq
    have h1 := string_append_left_cancel (tempDir ++ "/") heq
    exact string_append_right_cancel ".api.server.js" h1

/-- Witness for `claim_C2_artifact_keys_amended`. -/
theorem claim_C2_witness :
    compiledServerPath "/t" "/proj/src/app/a/page.tsx" =
      compiledServerPath "/t" "/proj/src/app/b/page.tsx" ∧
    compiledApiPath "/proj" "/t" "/proj/src/api/users/route.ts" ≠
      compiledApiPath "/proj" "/t" "/proj/src/api/posts/route.ts" :=
  ⟨claim_C2_artifact_keys_amended.1 "/t" "/proj/src/app/a/page.tsx"
      "/proj/src/app/b/page.tsx" (by decide),
    claim_C2_artifact_keys_amended.2.1 "/proj" "/t"
      "/proj/src/api/users/route.ts" "/proj/src/api/posts/route.ts" (by decide)⟩

/-! ### Claim C3 -/

/-- Claim C3, code bug.  When an API module exports both a method-named
function and a default function, the dispatcher invokes the default export:
`resolveHandler` returns `{ default: mod.default }` before ever inspecting
the method-named exports, so the method-preference of the dispatch code
below it (its own comment reads "Prefer method-named export") never sees the
`GET` export.  With no default export, the method-named export is selected
as documented. -/
theorem claim_C3_default_shadows_method_export :
    selectApiHandler
        (some (.obj { defaultExport := some "defaultHandler",
                      GET := some "getHandler" })) "GET" =
      .handler "defaultHandler" ∧
    ApiSelection.handler "defaultHandler" ≠ .handler "getHandler" ∧
    selectApiHandler (some (.obj { GET := some "getHandler" })) "GET" =
      .handler "getHandler" := by
  decide

/-! ### Claim C4 -/

/-- Claim C4, counterexample: a page module with an existing artifact whose
modification time (7) is newer than the source's (3) is nevertheless
re-bundled — `handlePageRoute` never consults the cache. -/
theorem claim_C4_counterexample :
    pageResolveStep "/t" "/p/src/app/a/page.tsx" true (some (3, 7)) =
      .bundle "/p/src/app/a/page.tsx" (compiledServerPath "/t" "/p/src/app/a/page.tsx") ∧
    pageResolveStep "/t" "/p/src/app/a/page.tsx" true (some (3, 7)) ≠
      .reuse (compiledServerPath "/t" "/p/src/app/a/page.tsx") := by
  decide

/-- Claim C4, corrected.  Only the API-handler resolution honours the
compilation cache: with an existing artifact at least as new as the source it
reuses the artifact without invoking the bundler.  Page-module resolution
(and likewise the layout and middleware paths in the source) invokes the
bundler on every request, whatever the cache state. -/
theorem claim_C4_cache_validity_amended :
    (∀ (root tempDir component : String) (srcMtime outMtime : Int),
      srcMtime ≤ outMtime →
      apiResolveStep root tempDir component true (some (srcMtime, outMtime)) =
        .reuse (compiledApiPath root tempDir component)) ∧
    (∀ (tempDir component : String) (artifactExists : Bool)
        (stats : Option (Int × Int)),
      pageResolveStep tempDir component artifactExists stats =
        .bundle component (compiledServerPath tempDir component)) := by
  constructor
  · intro root tempDir component srcMtime outMtime h
    unfold apiResolveStep apiNeedsBundle
    have hcond : decide (outMtime < srcMtime) = false := by
      simp
      omega
    rw [if_pos rfl]
    simp [hcond]
  · intro tempDir component artifactExists stats
    rfl

/-- Witness for `claim_C4_cache_validity_amended`. -/
theorem claim_C4_witness :
    apiResolveStep "/p" "/t" "/p/src/api/u/route.ts" true (some (3, 7)) =
      .reuse (compiledApiPath "/p" "/t" "/p/src/api/u/route.ts") ∧
    pageResolveStep "/t" "/p/src/app/page.tsx" true (some (3, 7)) =
      .bundle "/p/src/app/page.tsx" (compiledServerPath "/t" "/p/src/app/page.tsx") :=
  ⟨claim_C4_cache_validity_amended.1 "/p" "/t" "/p/src/api/u/route.ts" 3 7
      (by decide),
    claim_C4_cache_validity_amended.2 "/t" "/p/src/app/page.tsx" true (some (3, 7))⟩

/-! ### Claim C8 -/

/-- Claim C8, confirmed.  A page render that throws the redirect signal with
target `/login` and status 307 makes the dispatcher send, through
`SatsetResponse.redirect` and `sendSatsetResponse`, a response with status
307, a `Location` header equal to `/login`, and no body; the result is the
same whatever the rendering collaborator would return, which the code never
consults in this branch — no markup is produced. -/
theorem claim_C8_redirect_short_circuit :
    ∀ (allRoutes : List Route) (renderPage : Route → Option String),
      dispatchRender
        (.threw { redirectInfo := some { url := some "/login", status := some 307 } })
        allRoutes renderPage =
      .redirectSent { status := 307, headers := [("Location", "/login")], body := none } := by
  intro allRoutes renderPage
  rfl

/-! ### Claim C9 -/

/-- Claim C9, counterexample.  The claim's status rule fails outside the
400–599 window (`statusCode = 302` yields 500, not 302), and the claimed
five-candidate priority list is not what the code tries for codes other than
404/500: for a 403 the candidates are only `/403` and `/error`, so a
registered `/404` page is not consulted and the dispatcher falls back to the
overlay. -/
theorem claim_C9_counterexample :
    classifyErrorStatus { statusCode := some (.num 302) } = 500 ∧
    (500 : Nat) ≠ 302 ∧
    errorPageCandidates 403 = ["/403", "/error"] ∧
    errorPageCandidates 403 ≠ ["/403", "/404", "/not-found", "/500", "/error"] ∧
    dispatchRender (.threw { statusCode := some (.num 403) })
        [{ path := "/404", component := "src/app/404.tsx", exact := some true }]
        (fun r => some ("rendered:" ++ r.path)) = .overlay 500 := by
  decide

/-- Claim C9, corrected.  The status is taken from `statusCode`, then
`status`, then a numeric `code`, but only accepted when it is a number
between 400 and 599 — otherwise 500; the error-page candidates are
`/<code>`, then `/404` and `/not-found` only when the code is 404, then
`/500` only when it is 500, then `/error`, tried in that order (the first
registered candidate is rendered, as the concrete 403 conjunct shows). -/
theorem claim_C9_generic_error_amended :
    (∀ (err : ThrownError) (n : Int), err.statusCode = some (.num n) →
      400 ≤ n → n ≤ 599 → classifyErrorStatus err = n.toNat) ∧
    (∀ (err : ThrownError) (n : Int), err.statusCode = some (.num n) →
      (n < 400 ∨ 599 < n) → classifyErrorStatus err = 500) ∧
    (∀ (err : ThrownError) (n : Int), err.statusCode = none →
      err.status = some (.num n) → 400 ≤ n → n ≤ 599 →
      classifyErrorStatus err = n.toNat) ∧
    (∀ (err : ThrownError) (n : Int), err.statusCode = none →
      err.status = none → err.code = some (.num n) → 400 ≤ n → n ≤ 599 →
      classifyErrorStatus err = n.toNat) ∧
    (∀ err : ThrownError, err.statusCode = none → err.status = none →
      (∀ n : Int, err.code ≠ some (.num n)) → classifyErrorStatus err = 500) ∧
    (errorPageCandidates 404 = ["/404", "/404", "/not-found", "/error"] ∧
      errorPageCandidates 500 = ["/500", "/500", "/error"] ∧
      ∀ n : Nat, n ≠ 404 → n ≠ 500 →
        errorPageCandidates n = ["/" ++ toString n, "/error"]) ∧
    dispatchRender (.threw { statusCode := some (.num 403) })
        [{ path := "/403", component := "src/app/403.tsx", exact := some true },
         { path := "/error", component := "src/app/error.tsx", exact := some true }]
        (fun r => some ("E:" ++ r.path)) = .html 403 "E:/403" := by
  refine ⟨?_, ?_, ?_, ?_, ?_, ⟨by decide, by decide, ?_⟩, by decide⟩
  · intro err n h h400 h599
    unfold classifyErrorStatus
    rw [h]
    simp [h400, h599]
  · intro err n h hout
    unfold classifyErrorStatus
    rw [h]
    have : ¬(400 ≤ n ∧ n ≤ 599) := by omega
    simp [this]
  · intro err n h1 h2 h400 h599
    unfold classifyErrorStatus
    rw [h1, h2]
    simp [h400, h599]
  · intro err n h1 h2 h3 h400 h599
    unfold classifyErrorStatus
    rw [h1, h2, h3]
    simp [h400, h599]
  · intro err h1 h2 h3
    unfold classifyErrorStatus
    rw [h1, h2]
    rcases hc : err.code with _ | v
    · rfl
    · cases v with
      | num n => exact absurd hc (h3 n)
      | nonNum => rfl
  · intro n h404 h500
    unfold errorPageCandidates natPath
    simp [h404, h500]

/-- Witness for `claim_C9_generic_error_amended`. -/
theorem claim_C9_witness :
    classifyErrorStatus { statusCode := some (.num 418) } = 418 := by
  have h := claim_C9_generic_error_amended.1
    { statusCode := some (.num 418) } 418 rfl (by decide) (by decide)
  exact h.trans (by decide)

end Satset
